import Mathlib

/-!
Verification of the `seb` bibliography core against its specification.

The BibTeX codec (`src/crates/seb/src/format/bibtex.rs`) is embedded
directly from the source.  The `ast` module (QuotedString, EntryKind,
Resolver, BiblioResolver, Biblio) and the external `biblatex` grammar
parser are not part of the provided sources, so they are modelled from
the specification where the embedding needs them; each such definition
carries a doc comment starting with `Modelled from the spec:`.
-/

namespace Seb

/-- A chunk of field text produced by the external grammar parser
(`biblatex::Chunk`): either a verbatim span or a normal span. -/
inductive Chunk where
  | verbatim (s : String)
  | normal (s : String)
deriving DecidableEq

/-- Modelled from the spec: `QuotedString` (§3, §4.1) — an ordered sequence of
parts, each part a (verbatim : Bool, text : String) pair.  The `ast` module
defining it is not under `src/`. -/
structure QuotedString where
  parts : List (Bool × String)
deriving DecidableEq

/-- Modelled from the spec: the normalization performed by
`QuotedString::from_parts` (§4.1) — consecutive parts sharing a verbatim
flag are merged, and a normal chunk immediately bordered on both sides by
verbatim chunks (an artefact of the external parser splitting one verbatim
span around delimiter characters) is re-merged into a single verbatim part
preserving the exact original character sequence. -/
def normPartsAux : Nat → List (Bool × String) → List (Bool × String)
  | _, [] => []
  | _, [p] => [p]
  | 0, l => l
  | fuel + 1, p :: q :: rest =>
    if p.1 = q.1 then
      normPartsAux fuel ((p.1, p.2 ++ q.2) :: rest)
    else
      match rest with
      | [] => [p, q]
      | r :: rest' =>
        if p.1 = true ∧ q.1 = false ∧ r.1 = true then
          normPartsAux fuel ((true, p.2 ++ q.2 ++ r.2) :: rest')
        else
          p :: normPartsAux fuel (q :: r :: rest')

/-- Each step of the normalization strictly shortens the part list, so the
list's own length is always enough fuel for `normPartsAux`. -/
def normParts (l : List (Bool × String)) : List (Bool × String) :=
  normPartsAux l.length l

/-- Modelled from the spec: `QuotedString::from_parts` (§4.1). -/
def QuotedString.from_parts (ps : List (Bool × String)) : QuotedString :=
  ⟨normParts ps⟩

/-- Modelled from the spec: `QuotedString::new` — construction from a single
raw string yields one normal part (§4.1). -/
def QuotedString.new (s : String) : QuotedString :=
  ⟨[(false, s)]⟩

/-- Modelled from the spec: `QuotedString::map_quoted` (§4.1) — concatenates
parts in order; verbatim parts pass through `esc`; normal parts pass through
unchanged; no separators are inserted. -/
def QuotedString.map_quoted (q : QuotedString) (esc : String → String) : String :=
  q.parts.foldl (fun acc p => acc ++ (if p.1 then esc p.2 else p.2)) ""

/-- The (verbatim flag, text) pair of a `biblatex::Chunk`, as in the
`From<biblatex::Chunks> for QuotedString` impl in `bibtex.rs`. -/
def chunkPart : Chunk → Bool × String
  | .verbatim s => (true, s)
  | .normal s => (false, s)

/-- `impl From<biblatex::Chunks> for QuotedString` in `bibtex.rs`: map each
chunk to its part and normalize via `from_parts`. -/
def QuotedString.ofChunks (cs : List Chunk) : QuotedString :=
  QuotedString.from_parts (cs.map chunkPart)

/-- The closed set of entry kinds (spec §3). -/
inductive Kind where
  | article
  | book
  | booklet
  | bookChapter
  | bookPages
  | bookSection
  | inProceedings
  | manual
  | masterThesis
  | phdThesis
  | other
  | proceedings
  | techReport
  | unpublished
deriving DecidableEq

/-- Modelled from the spec: each kind fixes a canonical ordered list of
required field names (§3, §4.2).  The spec pins `title` as the required
field of `Manual` (§8 compose example) and gives no other list, so every
kind is modelled with the canonical required list containing `title`. -/
def requiredFields : Kind → List String :=
  fun _ => ["title"]

/-- Modelled from the spec: a finalized entry (§3, §4.2) — kind tag, cite
key, filled required fields in canonical order, optional fields in
insertion order. -/
structure Entry where
  kind : Kind
  cite : String
  req : List (String × QuotedString)
  opt : List (String × QuotedString)
deriving DecidableEq

/-- The transient (name, value) view produced when iterating an entry's
fields (`ast::Field`). -/
structure Field where
  name : String
  value : QuotedString
deriving DecidableEq

/-- Modelled from the spec: `fields()` (§4.2) — required fields first in
canonical order, then optional fields in insertion order. -/
def Entry.fields (e : Entry) : List Field :=
  (e.req ++ e.opt).map (fun p => ⟨p.1, p.2⟩)

/-- Modelled from the spec: `get_field(name)` (§4.2) — searches
required-then-optional storage, returning absent on a miss. -/
def Entry.get_field (e : Entry) (name : String) : Option QuotedString :=
  ((e.req ++ e.opt).find? (fun p => p.1 == name)).map Prod.snd

/-- Modelled from the spec: `Resolver` (§3, §4.3) — target kind tag, cite,
partially-filled required slots, optional-field map. -/
structure Resolver where
  kind : Kind
  cite : String
  slots : List (String × Option QuotedString)
  opt : List (String × QuotedString)
deriving DecidableEq

/-- Modelled from the spec: the per-kind `resolver_with_cite` helper (§4.2)
— seeds a Resolver pre-tagged with the kind and a given cite, zero fields
filled. -/
def Resolver.init (k : Kind) (cite : String) : Resolver :=
  ⟨k, cite, (requiredFields k).map (fun n => (n, none)), []⟩

/-- Insert-or-overwrite into an insertion-ordered association list
(optional-field storage, spec §4.3: inserted/overwritten, insertion order
preserved). -/
def upsert (l : List (String × QuotedString)) (n : String) (v : QuotedString) :
    List (String × QuotedString) :=
  match l with
  | [] => [(n, v)]
  | (m, w) :: rest => if m == n then (m, v) :: rest else (m, w) :: upsert rest n v

/-- Fill the required slot named `n`, if present (last write wins). -/
def fillSlot (slots : List (String × Option QuotedString)) (n : String)
    (v : QuotedString) : List (String × Option QuotedString) :=
  slots.map (fun s => if s.1 == n then (s.1, some v) else s)

/-- Modelled from the spec: `Resolver::set_field` (§4.3) — a name matching a
required slot fills that slot; otherwise it is inserted/overwritten in the
optional map.  No validation at set time. -/
def Resolver.set_field (r : Resolver) (n : String) (v : QuotedString) : Resolver :=
  if (requiredFields r.kind).contains n then
    { r with slots := fillSlot r.slots n v }
  else
    { r with opt := upsert r.opt n v }

/-- Modelled from the spec: the dedicated `book_title` setter (§4.2) —
`book_title` is stored internally like any optional field. -/
def Resolver.book_title (r : Resolver) (v : QuotedString) : Resolver :=
  r.set_field "book_title" v

/-- The required field names still missing from a resolver. -/
def Resolver.missing (r : Resolver) : List String :=
  (r.slots.filter (fun s => s.2.isNone)).map Prod.fst

/-- The filled required slots, in canonical order. -/
def Resolver.filled (r : Resolver) : List (String × QuotedString) :=
  r.slots.filterMap (fun s => s.2.map (fun v => (s.1, v)))

/-- Modelled from the spec: finalization (§4.3) — succeeds, producing an
immutable Entry, iff every required slot is filled. -/
def Resolver.finish (r : Resolver) : Option Entry :=
  if r.missing.isEmpty then some ⟨r.kind, r.cite, r.filled, r.opt⟩ else none

/-- Modelled from the spec: `Biblio` (§3, §4.5) — ordered collection of
finalized entries plus a dirty boolean. -/
structure Biblio where
  entries : List Entry
  dirty : Bool
deriving DecidableEq

/-- Modelled from the spec: `Biblio::new` builds from an already
fully-resolved list; a fresh collection is not dirty. -/
def Biblio.new (es : List Entry) : Biblio :=
  ⟨es, false⟩

/-- Modelled from the spec: `BiblioResolver` (§3, §4.4) — the subset of
entries already finalized plus the still-incomplete resolvers. -/
structure BiblioResolver where
  resolved : List Entry
  unresolved : List Resolver
deriving DecidableEq

/-- Modelled from the spec: `Biblio::try_resolve` (§4.4) — attempts
independent finalization of every resolver; if all finalize the result is
the fully resolved `Biblio`, otherwise the `BiblioResolver` bundling the
finalized entries alongside the unresolved resolvers. -/
def tryResolve (rs : List Resolver) : Except BiblioResolver Biblio :=
  if rs.all (fun r => r.missing.isEmpty) then
    .ok (Biblio.new (rs.filterMap Resolver.finish))
  else
    .error ⟨rs.filterMap Resolver.finish, rs.filter (fun r => !r.missing.isEmpty)⟩

/-- Entry types of the external grammar parser (`biblatex::EntryType`), as
matched in `bibtex.rs` (plus the miscellaneous types the wildcard arm
covers). -/
inductive EntryType where
  | article
  | book
  | booklet
  | inBook
  | inCollection
  | inProceedings
  | manual
  | mastersThesis
  | phdThesis
  | misc
  | proceedings
  | techReport
  | report
  | unpublished
  | unknown (s : String)
deriving DecidableEq

/-- One record supplied by the external grammar parser
(`biblatex::Entry`): entry type, cite key, field-name → chunk-list map. -/
structure BibRecord where
  entry_type : EntryType
  key : String
  fields : List (String × List Chunk)
deriving DecidableEq

/-- The entry-type match of `impl From<biblatex::Entry> for ast::Resolver`
in `bibtex.rs` (lines 105-118): recognized entry types seed a resolver of
the corresponding kind; the wildcard arm targets `Other`. -/
def Resolver.ofType (et : EntryType) (key : String) : Resolver :=
  match et with
  | .article => Resolver.init .article key
  | .book => Resolver.init .book key
  | .booklet => Resolver.init .booklet key
  | .inCollection => Resolver.init .bookSection key
  | .inProceedings => Resolver.init .inProceedings key
  | .manual => Resolver.init .manual key
  | .mastersThesis => Resolver.init .masterThesis key
  | .phdThesis => Resolver.init .phdThesis key
  | .techReport => Resolver.init .techReport key
  | .report => Resolver.init .techReport key
  | _ => Resolver.init .other key

/-- The per-field step of the same impl (lines 120-126): the wire field
`booktitle` goes through the dedicated `book_title` setter, every other
field through `set_field`. -/
def applyWireField (r : Resolver) (f : String × List Chunk) : Resolver :=
  if f.1 == "booktitle" then r.book_title (QuotedString.ofChunks f.2)
  else r.set_field f.1 (QuotedString.ofChunks f.2)

/-- `impl From<biblatex::Entry> for ast::Resolver` in `bibtex.rs`: pick the
resolver kind from the entry type, then feed every field through the
per-field step. -/
def Resolver.ofRecord (rec : BibRecord) : Resolver :=
  rec.fields.foldl applyWireField (Resolver.ofType rec.entry_type rec.key)

/-- Error kinds of `seb::Error` as used by the codec. -/
inductive ErrorKind where
  | deserialize
deriving DecidableEq

/-- `seb::Error`: kind plus message. -/
structure FormatError where
  kind : ErrorKind
  msg : String
deriving DecidableEq

/-- `BibTex::parse` in `bibtex.rs`, with the external grammar parser
(`biblatex::Bibliography::parse`, out of scope per spec §1) passed in as
`gp`: an empty input bypasses the grammar parser and yields an empty
bibliography; otherwise the grammar result is filtered to be non-empty or
a hard deserialize error is raised; finally every record becomes a
resolver and the resolvers are aggregated through `try_resolve`. -/
def parseWith (gp : String → Option (List BibRecord)) (raw : String) :
    Except FormatError (Except BiblioResolver Biblio) :=
  if raw.isEmpty then
    .ok (tryResolve [])
  else
    match (gp raw).filter (fun rs => rs.length != 0) with
    | none => .error ⟨.deserialize, "Unable to parse string as BibTeX"⟩
    | some rs => .ok (tryResolve (rs.map Resolver.ofRecord))

/-- `bibtex_esc` in `bibtex.rs`: wrap a verbatim span in braces. -/
def bibtex_esc (s : String) : String :=
  "\x7b" ++ s ++ "\x7d"

/-- `field.name.replace('_', "")` in `compose_fields`: delete every
underscore character. -/
def stripUnderscore (s : String) : String :=
  ⟨s.data.filter (fun c => c != '_')⟩

/-- One line of `compose_fields` in `bibtex.rs`. -/
def composeField (f : Field) : String :=
  "    " ++ stripUnderscore f.name ++ " = \x7b" ++ f.value.map_quoted bibtex_esc ++ "\x7d,\n"

/-- `compose_fields` in `bibtex.rs`: concatenate the field lines in order. -/
def compose_fields (fs : List Field) : String :=
  fs.foldl (fun acc f => acc ++ composeField f) ""

/-- `compose_variant` in `bibtex.rs`: the wire type keyword written for each
entry kind. -/
def compose_variant : Kind → String
  | .article => "article"
  | .book => "book"
  | .booklet => "booklet"
  | .bookChapter => "inbook"
  | .bookPages => "inbook"
  | .bookSection => "incollection"
  | .inProceedings => "inproceedings"
  | .manual => "manual"
  | .masterThesis => "masterthesis"
  | .phdThesis => "phdthesis"
  | .other => "misc"
  | .proceedings => "proceedings"
  | .techReport => "techreport"
  | .unpublished => "unpublished"

/-- One entry of `BibTex::compose` in `bibtex.rs`:
`format!("@{}{{{},\n{}}}\n", ...)`. -/
def composeEntry (e : Entry) : String :=
  "@" ++ compose_variant e.kind ++ "\x7b" ++ e.cite ++ ",\n"
    ++ compose_fields e.fields ++ "\x7d\n"

/-- `BibTex::compose` in `bibtex.rs`: concatenate the composed entries in
order. -/
def compose (b : Biblio) : String :=
  b.entries.foldl (fun acc e => acc ++ composeEntry e) ""

/-- Modelled from the spec: the external grammar parser's recognition of
entry-type keywords (the parser itself is out of scope, §1/§4.6).  Each
standard BibTeX type keyword — in particular each keyword `compose_variant`
emits — is mapped to the entry type of the same name (so `inbook` to the
`InBook` entry type); anything else is an unknown type. -/
def typeOfKeyword (s : String) : EntryType :=
  if s == "article" then .article
  else if s == "book" then .book
  else if s == "booklet" then .booklet
  else if s == "inbook" then .inBook
  else if s == "incollection" then .inCollection
  else if s == "inproceedings" then .inProceedings
  else if s == "manual" then .manual
  else if s == "masterthesis" then .mastersThesis
  else if s == "phdthesis" then .phdThesis
  else if s == "misc" then .misc
  else if s == "proceedings" then .proceedings
  else if s == "techreport" then .techReport
  else if s == "unpublished" then .unpublished
  else .unknown s

/-- Inverse of `chunkPart`: the chunk the grammar parser reads back from a
written part (brace-wrapped spans come back verbatim, bare text normal). -/
def partChunk : Bool × String → Chunk
  | (true, s) => .verbatim s
  | (false, s) => .normal s

/-- Modelled from the spec: the record the external grammar parser produces
for one composed entry (§2 flow, §6 wire format) — the written type
keyword, the cite key, and each written field under its wire name with its
value read back as chunks. -/
def recordOfEntry (e : Entry) : BibRecord :=
  ⟨typeOfKeyword (compose_variant e.kind), e.cite,
   e.fields.map (fun f => (stripUnderscore f.name, f.value.parts.map partChunk))⟩

/-- Modelled from the spec: the records the external grammar parser produces
for a whole composed bibliography — one per entry, in order (§6: records
concatenated with no inter-record separator). -/
def recordsOfBiblio (b : Biblio) : List BibRecord :=
  b.entries.map recordOfEntry

/-- Cite keys are unique within the bibliography (spec §3). -/
def uniqueCites (b : Biblio) : Prop :=
  (b.entries.map Entry.cite).Nodup

/-- A field name that survives the wire unchanged: it is not the wire name
`booktitle` (which parse renames to `book_title`) and contains no
underscore (which compose strips). -/
def wireSafeName (n : String) : Prop :=
  n ≠ "booktitle" ∧ '_' ∉ n.data

/-- The entries for which the BibTeX wire format is faithful: the kind's
type keyword is parsed back to the same kind (which fails for
`BookChapter`/`BookPages`, both written as `inbook`, and for
`Proceedings`/`Unpublished`, whose entry types the parse match does not
recognize), the required fields are exactly the canonical ones, every field
name survives the wire, optional names are distinct and disjoint from the
required ones, and every value's parts are already in the normal form that
`from_parts` produces. -/
def Entry.roundTrippable (e : Entry) : Prop :=
  e.kind ∉ [Kind.bookChapter, Kind.bookPages, Kind.proceedings, Kind.unpublished] ∧
  e.req.map Prod.fst = requiredFields e.kind ∧
  (∀ p ∈ e.req, wireSafeName p.1 ∧ normParts p.2.parts = p.2.parts) ∧
  (e.opt.map Prod.fst).Nodup ∧
  (∀ p ∈ e.opt, (p.1 = "book_title" ∨ wireSafeName p.1) ∧ p.1 ∉ requiredFields e.kind ∧
      normParts p.2.parts = p.2.parts)

instance (b : Biblio) : Decidable (uniqueCites b) :=
  decidable_of_iff ((b.entries.map Entry.cite).Nodup) Iff.rfl

instance (n : String) : Decidable (wireSafeName n) :=
  decidable_of_iff (n ≠ "booktitle" ∧ '_' ∉ n.data) Iff.rfl

instance (e : Entry) : Decidable e.roundTrippable :=
  decidable_of_iff
    (e.kind ∉ [Kind.bookChapter, Kind.bookPages, Kind.proceedings, Kind.unpublished] ∧
     e.req.map Prod.fst = requiredFields e.kind ∧
     (∀ p ∈ e.req, wireSafeName p.1 ∧ normParts p.2.parts = p.2.parts) ∧
     (e.opt.map Prod.fst).Nodup ∧
     (∀ p ∈ e.opt, (p.1 = "book_title" ∨ wireSafeName p.1) ∧ p.1 ∉ requiredFields e.kind ∧
         normParts p.2.parts = p.2.parts))
    Iff.rfl

/-- The input string of the `parse_booktitle_field_as_book_title` test. -/
def c6input : String :=
  "@misc\x7bcite, title=\x7btitle\x7d,booktitle=\x7bCorrect\x7d,\x7d"

/-- The record the external grammar parser produces for `c6input`. -/
def c6record : BibRecord :=
  ⟨.misc, "cite", [("title", [.normal "title"]), ("booktitle", [.normal "Correct"])]⟩

/-- The entry `c6input` parses to. -/
def c6entry : Entry :=
  ⟨Kind.other, "cite", [("title", QuotedString.new "title")],
   [("book_title", QuotedString.new "Correct")]⟩

/-- A bibliography holding one `BookChapter` entry, used to exhibit the
round-trip failure of the `inbook` keyword. -/
def c1cexBiblio : Biblio :=
  Biblio.new [⟨Kind.bookChapter, "k", [("title", QuotedString.new "T")], []⟩]

/-- A grammar-parser behavior consistent with the modelled record
correspondence on `compose c1cexBiblio`. -/
def c1cexGp : String → Option (List BibRecord) :=
  fun _ => some (recordsOfBiblio c1cexBiblio)

/-- A well-behaved one-entry bibliography (the spec's §8 Manual example),
used as a concrete instance of the amended round-trip theorem. -/
def c1wBiblio : Biblio :=
  Biblio.new [⟨Kind.manual, "entry1", [("title", QuotedString.new "Test")],
    [("author", QuotedString.new "Me")]⟩]

/-- A grammar-parser behavior consistent with the modelled record
correspondence on `compose c1wBiblio`. -/
def c1wGp : String → Option (List BibRecord) :=
  fun _ => some (recordsOfBiblio c1wBiblio)

/-! ## Helper lemmas -/

theorem set_field_kind (r : Resolver) (n : String) (v : QuotedString) :
    (r.set_field n v).kind = r.kind := by
  unfold Resolver.set_field
  split <;> rfl

theorem applyWireField_kind (r : Resolver) (f : String × List Chunk) :
    (applyWireField r f).kind = r.kind := by
  unfold applyWireField Resolver.book_title
  split <;> rw [set_field_kind]

theorem foldl_applyWireField_kind :
    ∀ (fs : List (String × List Chunk)) (r : Resolver),
      (fs.foldl applyWireField r).kind = r.kind
  | [], _ => rfl
  | f :: fs, r => by
    rw [List.foldl_cons, foldl_applyWireField_kind fs, applyWireField_kind]

theorem ofRecord_kind (rec : BibRecord) :
    (Resolver.ofRecord rec).kind = (Resolver.ofType rec.entry_type rec.key).kind := by
  unfold Resolver.ofRecord
  exact foldl_applyWireField_kind _ _

theorem isEmpty_false_of_ne (s : String) (hs : s ≠ "") : s.isEmpty = false := by
  rcases h' : s.isEmpty with _ | _
  · rfl
  · exact absurd ((String.isEmpty_iff s).mp h') hs

/-! ## C2 -/

/-- C2: `parse` applied to the empty input string succeeds, for any
behavior of the external grammar parser, with the doubly-Ok result
carrying an empty `Biblio` whose dirty flag is false; the empty string is
never treated as a parse error. -/
theorem c2_parse_empty_input (gp : String → Option (List BibRecord)) :
    parseWith gp "" = .ok (.ok (Biblio.new [])) ∧ (Biblio.new []).dirty = false :=
  ⟨rfl, rfl⟩

/-! ## C3 -/

/-- C3: for every non-empty input string that the grammar parser cannot
tokenize at all (`none`) or that tokenizes to zero records (`some []`),
`parse` returns the hard deserialize error, and nothing is partially
returned. -/
theorem c3_parse_hard_error (gp : String → Option (List BibRecord)) (s : String)
    (hs : s ≠ "") (h : gp s = none ∨ gp s = some []) :
    parseWith gp s = .error ⟨.deserialize, "Unable to parse string as BibTeX"⟩ := by
  have he := isEmpty_false_of_ne s hs
  rcases h with h | h <;> simp [parseWith, he, h, Option.filter]

theorem c3_parse_hard_error_witness :
    parseWith (fun _ => none) "x" = .error ⟨.deserialize, "Unable to parse string as BibTeX"⟩ :=
  c3_parse_hard_error (fun _ => none) "x" (by decide) (Or.inl rfl)

/-! ## C7 -/

/-- C7: the chunk list `V"(HTTP/" N"1" V"." N"1" V")"` is re-merged by the
`From<Chunks>` conversion into a single verbatim part, so `map_quoted`
with the brace-wrapping escape yields exactly `{(HTTP/1.1)}`. -/
theorem c7_chunk_escape_correction :
    (QuotedString.ofChunks [.verbatim "(HTTP/", .normal "1", .verbatim ".", .normal "1",
        .verbatim ")"]).parts = [(true, "(HTTP/1.1)")] ∧
    (QuotedString.ofChunks [.verbatim "(HTTP/", .normal "1", .verbatim ".", .normal "1",
        .verbatim ")"]).map_quoted bibtex_esc = "\x7b(HTTP/1.1)\x7d" := by
  decide

/-! ## C8 -/

/-- C8: composing a Manual entry with cite `entry1`, required title `Test`
and optional author `Me` yields exactly the expected text, and composing
the single field `(author, "Me")` yields exactly its four-space indented
line with braces, trailing comma and newline. -/
theorem c8_compose_manual :
    compose (Biblio.new [⟨Kind.manual, "entry1", [("title", QuotedString.new "Test")],
        [("author", QuotedString.new "Me")]⟩])
      = "@manual\x7bentry1,\n    title = \x7bTest\x7d,\n    author = \x7bMe\x7d,\n\x7d\n" ∧
    compose_fields [⟨"author", QuotedString.new "Me"⟩] = "    author = \x7bMe\x7d,\n" := by
  decide

/-! ## C5 -/

theorem stripUnderscore_idem (s : String) :
    stripUnderscore (stripUnderscore s) = stripUnderscore s := by
  unfold stripUnderscore
  apply String.ext
  simp [List.filter_filter]

/-- C5: on compose, every underscore character is removed from every field
name written to the wire — the written names are invariant under
pre-stripping, the written names contain no underscore, and `book_title`
becomes `booktitle` as a special case of the general rule. -/
theorem c5_compose_strips_underscores (fs : List Field) :
    compose_fields fs
        = compose_fields (fs.map (fun f => ⟨stripUnderscore f.name, f.value⟩)) ∧
    (∀ f ∈ fs, ∀ c ∈ (stripUnderscore f.name).data, c ≠ '_') ∧
    stripUnderscore "book_title" = "booktitle" := by
  refine ⟨?_, ?_, by decide⟩
  · unfold compose_fields
    rw [List.foldl_map]
    apply List.foldl_ext
    intro acc f _
    unfold composeField
    rw [stripUnderscore_idem]
  · intro f _ c hc
    unfold stripUnderscore at hc
    have hc' : c ∈ f.name.data.filter (fun c => c != '_') := hc
    have := List.of_mem_filter hc'
    simpa using this

/-! ## C9 -/

/-- C9: every record's entry type is mapped to an entry kind, and every
unrecognized or miscellaneous entry type (`inbook`, `misc`, `proceedings`,
`unpublished`, any unknown keyword) produces a resolver targeting the
`Other` kind; no entry type by itself makes `parse` fail hard. -/
theorem c9_unrecognized_to_other (c : String) (fs : List (String × List Chunk))
    (s : String) :
    (Resolver.ofRecord ⟨.inBook, c, fs⟩).kind = .other ∧
    (Resolver.ofRecord ⟨.misc, c, fs⟩).kind = .other ∧
    (Resolver.ofRecord ⟨.proceedings, c, fs⟩).kind = .other ∧
    (Resolver.ofRecord ⟨.unpublished, c, fs⟩).kind = .other ∧
    (Resolver.ofRecord ⟨.unknown s, c, fs⟩).kind = .other ∧
    (∀ (gp : String → Option (List BibRecord)) (raw : String) (r : BibRecord)
        (rs : List BibRecord), raw ≠ "" → gp raw = some (r :: rs) →
        ∃ x, parseWith gp raw = .ok x) := by
  refine ⟨ofRecord_kind _, ofRecord_kind _, ofRecord_kind _, ofRecord_kind _,
    ofRecord_kind _, ?_⟩
  intro gp raw r rs hraw hgp
  have he := isEmpty_false_of_ne raw hraw
  have hv : parseWith gp raw = .ok (tryResolve ((r :: rs).map Resolver.ofRecord)) := by
    simp [parseWith, he, hgp, Option.filter]
  exact ⟨_, hv⟩

theorem c9_unrecognized_to_other_witness :
    (Resolver.ofRecord ⟨.inBook, "c", []⟩).kind = .other ∧
    ∃ x, parseWith (fun _ => some [⟨.inBook, "c", []⟩]) "@" = .ok x :=
  ⟨(c9_unrecognized_to_other "c" [] "u").1,
   (c9_unrecognized_to_other "c" [] "u").2.2.2.2.2 (fun _ => some [⟨.inBook, "c", []⟩])
     "@" ⟨.inBook, "c", []⟩ [] (by decide) rfl⟩

/-! ## C10 -/

/-- C10: compose writes the same keyword `inbook` for both `BookChapter`
and `BookPages`, while parse maps the `inbook` entry type to the `Other`
kind and in fact never produces a `BookChapter` or `BookPages` resolver
from any record, so the distinction is not representable on the wire and
the composed kind is not the kind parse recovers. -/
theorem c10_inbook_kind_asymmetry :
    compose_variant .bookChapter = "inbook" ∧
    compose_variant .bookPages = "inbook" ∧
    (∀ (c : String) (fs : List (String × List Chunk)),
        (Resolver.ofRecord ⟨.inBook, c, fs⟩).kind = .other) ∧
    (∀ rec : BibRecord, (Resolver.ofRecord rec).kind ≠ .bookChapter ∧
        (Resolver.ofRecord rec).kind ≠ .bookPages) := by
  refine ⟨rfl, rfl, fun c fs => ofRecord_kind _, ?_⟩
  intro rec
  rw [ofRecord_kind]
  rcases rec with ⟨et, key, fs⟩
  cases et <;>
    exact ⟨by simp [Resolver.ofType, Resolver.init], by simp [Resolver.ofType, Resolver.init]⟩

/-! ## C6 -/

/-- C6: parsing `"@misc{cite, title={title},booktitle={Correct},}"` (with
the grammar parser tokenizing it to its one record) succeeds with exactly
one entry whose internal `book_title` field is `"Correct"`: the wire field
`booktitle` is renamed to the internal `book_title` on parse. -/
theorem c6_booktitle_renamed (gp : String → Option (List BibRecord))
    (h : gp c6input = some [c6record]) :
    parseWith gp c6input = .ok (.ok (Biblio.new [c6entry])) ∧
    (Biblio.new [c6entry]).entries.length = 1 ∧
    c6entry.get_field "book_title" = some (QuotedString.new "Correct") := by
  refine ⟨?_, rfl, by decide⟩
  have he : c6input.isEmpty = false := by decide
  have hv : parseWith gp c6input = .ok (tryResolve ([c6record].map Resolver.ofRecord)) := by
    simp [parseWith, he, h, Option.filter]
  rw [hv]
  rfl

theorem c6_booktitle_renamed_witness :
    parseWith (fun _ => some [c6record]) c6input = .ok (.ok (Biblio.new [c6entry])) ∧
    (Biblio.new [c6entry]).entries.length = 1 ∧
    c6entry.get_field "book_title" = some (QuotedString.new "Correct") :=
  c6_booktitle_renamed (fun _ => some [c6record]) rfl

/-! ## C4 -/

/-- C4: when every record tokenizes but at least one misses a required
field, `parse` does not hard-error: it returns the inner Err carrying the
`BiblioResolver`, which bundles the finalized entries together with the
resolvers that are still missing required fields (each listed unresolved
resolver indeed has a non-empty missing list). -/
theorem c4_missing_fields_not_hard_error (gp : String → Option (List BibRecord))
    (s : String) (rs : List BibRecord) (hs : s ≠ "") (hgp : gp s = some rs)
    (hbad : ∃ r ∈ rs, (Resolver.ofRecord r).missing ≠ []) :
    parseWith gp s = .ok (.error
      ⟨(rs.map Resolver.ofRecord).filterMap Resolver.finish,
       (rs.map Resolver.ofRecord).filter (fun r => !r.missing.isEmpty)⟩) ∧
    ∀ r ∈ (rs.map Resolver.ofRecord).filter (fun r => !r.missing.isEmpty),
      r.missing ≠ [] := by
  obtain ⟨r₀, hr₀, hmiss⟩ := hbad
  constructor
  · have he := isEmpty_false_of_ne s hs
    have hne : rs ≠ [] := by rintro rfl; exact absurd hr₀ (List.not_mem_nil r₀)
    have hlen : (rs.length != 0) = true := by
      simpa [List.length_eq_zero] using hne
    have hall : (rs.map Resolver.ofRecord).all (fun r => r.missing.isEmpty) = false := by
      rw [List.all_eq_false]
      refine ⟨Resolver.ofRecord r₀, List.mem_map_of_mem _ hr₀, ?_⟩
      simpa [List.isEmpty_iff] using hmiss
    simp [parseWith, he, hgp, Option.filter, hlen, tryResolve, hall]
  · intro r hr
    have := List.of_mem_filter hr
    simpa [List.isEmpty_iff] using this

theorem c4_missing_fields_not_hard_error_witness :
    parseWith (fun _ => some [⟨.manual, "c", []⟩]) "@" = .ok (.error
      ⟨([⟨.manual, "c", []⟩].map Resolver.ofRecord).filterMap Resolver.finish,
       ([⟨.manual, "c", []⟩].map Resolver.ofRecord).filter
         (fun r => !r.missing.isEmpty)⟩) ∧
    ∀ r ∈ ([(⟨.manual, "c", []⟩ : BibRecord)].map Resolver.ofRecord).filter
        (fun r => !r.missing.isEmpty), r.missing ≠ [] :=
  c4_missing_fields_not_hard_error (fun _ => some [⟨.manual, "c", []⟩]) "@"
    [⟨.manual, "c", []⟩] (by decide) rfl ⟨⟨.manual, "c", []⟩, by decide, by decide⟩

/-! ## C1: round trip -/

theorem requiredFields_eq (k : Kind) : requiredFields k = ["title"] := rfl

theorem compose_data_foldl (l : List Entry) :
    ∀ init : String,
      (l.foldl (fun acc e => acc ++ composeEntry e) init).data
        = init.data ++ (l.map (fun e => (composeEntry e).data)).flatten := by
  induction l with
  | nil => intro init; simp
  | cons e es ih =>
    intro init
    rw [List.foldl_cons, ih, String.data_append]
    simp

theorem composeEntry_data_ne (e : Entry) : (composeEntry e).data ≠ [] := by
  unfold composeEntry
  simp [String.data_append, show ("@" : String).data = ['@'] from rfl]

theorem compose_isEmpty_false (e : Entry) (es : List Entry) (d : Bool) :
    (compose ⟨e :: es, d⟩).isEmpty = false := by
  have hdata : (compose ⟨e :: es, d⟩).data
      = (composeEntry e).data ++ (es.map (fun x => (composeEntry x).data)).flatten := by
    simpa [compose] using compose_data_foldl (e :: es) ""
  rcases h' : (compose ⟨e :: es, d⟩).isEmpty with _ | _
  · rfl
  · exfalso
    have h0 : compose ⟨e :: es, d⟩ = "" := (String.isEmpty_iff _).mp h'
    rw [h0] at hdata
    exact composeEntry_data_ne e (List.append_eq_nil.mp hdata.symm).1

theorem stripUnderscore_of_wireSafe (n : String) (h : '_' ∉ n.data) :
    stripUnderscore n = n := by
  apply String.ext
  show n.data.filter (fun c => c != '_') = n.data
  rw [List.filter_eq_self]
  intro c hc
  simp only [bne_iff_ne, ne_eq]
  rintro rfl
  exact h hc

theorem chunkPart_partChunk (p : Bool × String) : chunkPart (partChunk p) = p := by
  rcases p with ⟨b, s⟩
  cases b <;> rfl

theorem ofChunks_map_partChunk (q : QuotedString) (h : normParts q.parts = q.parts) :
    QuotedString.ofChunks (q.parts.map partChunk) = q := by
  unfold QuotedString.ofChunks QuotedString.from_parts
  rw [List.map_map]
  have hm : q.parts.map (chunkPart ∘ partChunk) = q.parts := by
    simp [Function.comp_def, chunkPart_partChunk]
  rw [hm, h]

theorem upsert_append (acc : List (String × QuotedString)) (n : String)
    (v : QuotedString) (h : ∀ q ∈ acc, q.1 ≠ n) :
    upsert acc n v = acc ++ [(n, v)] := by
  induction acc with
  | nil => rfl
  | cons a rest ih =>
    rcases a with ⟨m, w⟩
    unfold upsert
    rw [if_neg (by simpa using h (m, w) (List.mem_cons_self _ _))]
    rw [List.cons_append, ih (fun q hq => h q (List.mem_cons_of_mem _ hq))]

theorem set_field_opt (k : Kind) (c : String) (sl : List (String × Option QuotedString))
    (acc : List (String × QuotedString)) (n : String) (v : QuotedString)
    (hn : n ≠ "title") :
    Resolver.set_field ⟨k, c, sl, acc⟩ n v = ⟨k, c, sl, upsert acc n v⟩ := by
  unfold Resolver.set_field
  split
  · rename_i hmem
    exfalso
    rw [requiredFields_eq] at hmem
    simp [List.contains_cons] at hmem
    exact hn hmem
  · rfl

theorem ofType_of_keyword (k : Kind) (c : String)
    (hk : k ∉ [Kind.bookChapter, Kind.bookPages, Kind.proceedings, Kind.unpublished]) :
    Resolver.ofType (typeOfKeyword (compose_variant k)) c = Resolver.init k c := by
  cases k <;> first
    | rfl
    | exact absurd (by decide) hk

theorem foldl_wire_opt :
    ∀ opt : List (String × QuotedString),
      (∀ p ∈ opt, (p.1 = "book_title" ∨ wireSafeName p.1) ∧ p.1 ≠ "title" ∧
          normParts p.2.parts = p.2.parts) →
      (opt.map Prod.fst).Nodup →
      ∀ (k : Kind) (c : String) (sl : List (String × Option QuotedString))
        (acc : List (String × QuotedString)),
        (∀ p ∈ opt, ∀ q ∈ acc, q.1 ≠ p.1) →
        List.foldl applyWireField ⟨k, c, sl, acc⟩
            (opt.map (fun p => (stripUnderscore p.1, p.2.parts.map partChunk)))
          = ⟨k, c, sl, acc ++ opt⟩ := by
  intro opt
  induction opt with
  | nil =>
    intro _ _ k c sl acc _
    rw [List.map_nil, List.foldl_nil, List.append_nil]
  | cons p rest ih =>
    intro hsafe hnd k c sl acc hdisj
    obtain ⟨hname, hnt, hnorm⟩ := hsafe p (List.mem_cons_self _ _)
    simp only [List.map_cons, List.foldl_cons]
    have hstep : applyWireField ⟨k, c, sl, acc⟩
        (stripUnderscore p.1, p.2.parts.map partChunk) = ⟨k, c, sl, acc ++ [p]⟩ := by
      rcases hname with hbt | hws
      · rw [hbt, show stripUnderscore "book_title" = "booktitle" from by decide]
        have h0 : applyWireField ⟨k, c, sl, acc⟩ ("booktitle", p.2.parts.map partChunk)
            = ⟨k, c, sl, upsert acc "book_title"
                (QuotedString.ofChunks (p.2.parts.map partChunk))⟩ := rfl
        rw [h0, ofChunks_map_partChunk p.2 hnorm]
        rw [upsert_append acc "book_title" p.2
          (fun q hq => hbt ▸ hdisj p (List.mem_cons_self _ _) q hq)]
        rw [← hbt]
      · obtain ⟨hnbt, hnu⟩ := hws
        rw [stripUnderscore_of_wireSafe p.1 hnu]
        unfold applyWireField
        rw [if_neg (by simpa using hnbt)]
        show Resolver.set_field ⟨k, c, sl, acc⟩ p.1
            (QuotedString.ofChunks (p.2.parts.map partChunk)) = ⟨k, c, sl, acc ++ [p]⟩
        rw [ofChunks_map_partChunk p.2 hnorm]
        rw [set_field_opt k c sl acc p.1 p.2 hnt]
        rw [upsert_append acc p.1 p.2 (fun q hq => hdisj p (List.mem_cons_self _ _) q hq)]
    rw [hstep]
    have hnd' : (rest.map Prod.fst).Nodup := by
      simp only [List.map_cons, List.nodup_cons] at hnd
      exact hnd.2
    have hp1 : p.1 ∉ rest.map Prod.fst := by
      simp only [List.map_cons, List.nodup_cons] at hnd
      exact hnd.1
    rw [ih (fun x hx => hsafe x (List.mem_cons_of_mem _ hx)) hnd' k c sl (acc ++ [p]) ?_]
    · simp
    · intro p' hp' q hq
      rcases List.mem_append.mp hq with hq | hq
      · exact hdisj p' (List.mem_cons_of_mem _ hp') q hq
      · rw [List.mem_singleton.mp hq]
        intro hc
        exact hp1 (hc ▸ List.mem_map_of_mem Prod.fst hp')

theorem ofRecord_recordOfEntry (e : Entry) (he : e.roundTrippable) :
    (Resolver.ofRecord (recordOfEntry e)).missing = [] ∧
    (Resolver.ofRecord (recordOfEntry e)).finish = some e := by
  obtain ⟨hkind, hreq, hreqsafe, hnd, hopt⟩ := he
  obtain ⟨tv, htv⟩ : ∃ tv, e.req = [("title", tv)] := by
    rcases hq : e.req with _ | ⟨⟨n, v⟩, rest⟩
    · rw [hq, requiredFields_eq] at hreq
      simp at hreq
    · rcases rest with _ | ⟨q, rest'⟩
      · rw [hq, requiredFields_eq] at hreq
        simp at hreq
        exact ⟨v, by rw [hreq]⟩
      · rw [hq, requiredFields_eq] at hreq
        simp at hreq
  have hnorm_tv : normParts tv.parts = tv.parts :=
    (hreqsafe ("title", tv) (by rw [htv]; exact List.mem_singleton_self _)).2
  have hres : Resolver.ofRecord (recordOfEntry e)
      = ⟨e.kind, e.cite, [("title", some tv)], e.opt⟩ := by
    unfold Resolver.ofRecord recordOfEntry
    rw [show (⟨typeOfKeyword (compose_variant e.kind), e.cite,
        e.fields.map (fun f => (stripUnderscore f.name, f.value.parts.map partChunk))⟩ :
        BibRecord).fields
      = e.fields.map (fun f => (stripUnderscore f.name, f.value.parts.map partChunk))
      from rfl]
    rw [show (⟨typeOfKeyword (compose_variant e.kind), e.cite,
        e.fields.map (fun f => (stripUnderscore f.name, f.value.parts.map partChunk))⟩ :
        BibRecord).entry_type = typeOfKeyword (compose_variant e.kind) from rfl]
    rw [ofType_of_keyword e.kind e.cite hkind]
    have hfields : e.fields.map (fun f => (stripUnderscore f.name, f.value.parts.map partChunk))
        = ("title", tv.parts.map partChunk) ::
          e.opt.map (fun p => (stripUnderscore p.1, p.2.parts.map partChunk)) := by
      unfold Entry.fields
      rw [htv]
      simp only [List.map_map, List.cons_append, List.nil_append, List.map_cons,
        Function.comp_def]
      rw [show stripUnderscore "title" = "title" from by decide]
    rw [hfields, List.foldl_cons]
    have hstep1 : applyWireField (Resolver.init e.kind e.cite)
        ("title", tv.parts.map partChunk) = ⟨e.kind, e.cite, [("title", some tv)], []⟩ := by
      have h0 : applyWireField (Resolver.init e.kind e.cite)
          ("title", tv.parts.map partChunk)
          = ⟨e.kind, e.cite,
             [("title", some (QuotedString.ofChunks (tv.parts.map partChunk)))], []⟩ := rfl
      rw [h0, ofChunks_map_partChunk tv hnorm_tv]
    rw [hstep1]
    have hopt' : ∀ p ∈ e.opt, (p.1 = "book_title" ∨ wireSafeName p.1) ∧ p.1 ≠ "title" ∧
        normParts p.2.parts = p.2.parts := by
      intro p hp
      obtain ⟨h1, h2, h3⟩ := hopt p hp
      refine ⟨h1, ?_, h3⟩
      rw [requiredFields_eq] at h2
      simpa using h2
    exact foldl_wire_opt e.opt hopt' hnd e.kind e.cite [("title", some tv)] []
      (fun p _ q hq => absurd hq (List.not_mem_nil q))
  rw [hres]
  refine ⟨rfl, ?_⟩
  have hfin : Resolver.finish ⟨e.kind, e.cite, [("title", some tv)], e.opt⟩
      = some ⟨e.kind, e.cite, [("title", tv)], e.opt⟩ := rfl
  rw [hfin, ← htv]

theorem filterMap_finish (l : List Entry) (hl : ∀ e ∈ l, e.roundTrippable) :
    l.filterMap (fun e => (Resolver.ofRecord (recordOfEntry e)).finish) = l := by
  induction l with
  | nil => rfl
  | cons e es ih =>
    rw [List.filterMap_cons]
    rw [(ofRecord_recordOfEntry e (hl e (List.mem_cons_self _ _))).2]
    rw [ih (fun x hx => hl x (List.mem_cons_of_mem _ hx))]

theorem tryResolve_roundtrip (l : List Entry) (hl : ∀ e ∈ l, e.roundTrippable) :
    tryResolve ((l.map recordOfEntry).map Resolver.ofRecord) = .ok (Biblio.new l) := by
  unfold tryResolve
  rw [List.map_map]
  have hall : (l.map (Resolver.ofRecord ∘ recordOfEntry)).all
      (fun r => r.missing.isEmpty) = true := by
    rw [List.all_eq_true]
    intro r hr
    obtain ⟨e, he, rfl⟩ := List.mem_map.mp hr
    show ((Resolver.ofRecord (recordOfEntry e)).missing).isEmpty = true
    rw [(ofRecord_recordOfEntry e (hl e he)).1]
    rfl
  rw [if_pos hall]
  have hfil : (l.map (Resolver.ofRecord ∘ recordOfEntry)).filterMap Resolver.finish = l := by
    rw [List.filterMap_map]
    exact filterMap_finish l hl
  rw [hfil]

/-- C1 counterexample: a Biblio with unique cite keys holding one
`BookChapter` entry (with its required title), composed and re-parsed under
the modelled grammar correspondence, parses successfully — but to an entry
of kind `Other` (the `inbook` keyword is not mapped back), so no result of
the round trip is semantically equal to the original. -/
theorem c1_roundtrip_counterexample :
    uniqueCites c1cexBiblio ∧
    c1cexGp (compose c1cexBiblio) = some (recordsOfBiblio c1cexBiblio) ∧
    ¬ ∃ b' : Biblio, parseWith c1cexGp (compose c1cexBiblio) = .ok (.ok b') ∧
        b'.entries = c1cexBiblio.entries := by
  refine ⟨by decide, rfl, ?_⟩
  rintro ⟨b', hb, hent⟩
  have hval : parseWith c1cexGp (compose c1cexBiblio)
      = .ok (.ok (Biblio.new [⟨Kind.other, "k", [("title", QuotedString.new "T")], []⟩])) := by
    rfl
  rw [hval] at hb
  injection hb with hb
  injection hb with hb
  rw [← hb] at hent
  exact absurd hent (by decide)

/-- C1 amended: for every Biblio with unique cite keys whose entries are
round-trippable — kinds other than `BookChapter`/`BookPages` (both written
`inbook`) and `Proceedings`/`Unpublished` (entry types the parse match
sends to `Other`), canonical required fields, wire-safe distinct field
names, normalized values — and for every grammar-parser behavior that
tokenizes the composed text into the modelled records, `parse(compose(B))`
succeeds with the fully-resolved branch and the result carries exactly the
same entries in order (same cite keys, kinds and field values; only the
dirty flag is freshly false). -/
theorem c1_roundtrip_amended (b : Biblio) (gp : String → Option (List BibRecord))
    (hu : uniqueCites b) (he : ∀ e ∈ b.entries, e.roundTrippable)
    (hgp : gp (compose b) = some (recordsOfBiblio b)) :
    parseWith gp (compose b) = .ok (.ok (Biblio.new b.entries)) := by
  rcases b with ⟨entries, d⟩
  rcases entries with _ | ⟨e, es⟩
  · rfl
  · have hie := compose_isEmpty_false e es d
    have hlen : ((recordsOfBiblio ⟨e :: es, d⟩).length != 0) = true := by
      simp [recordsOfBiblio]
    have hv : parseWith gp (compose ⟨e :: es, d⟩)
        = .ok (tryResolve ((recordsOfBiblio ⟨e :: es, d⟩).map Resolver.ofRecord)) := by
      simp [parseWith, hie, hgp, Option.filter, hlen]
    rw [hv]
    unfold recordsOfBiblio
    rw [tryResolve_roundtrip (e :: es) (fun x hx => he x hx)]

theorem c1_roundtrip_amended_witness :
    parseWith c1wGp (compose c1wBiblio) = .ok (.ok (Biblio.new c1wBiblio.entries)) :=
  c1_roundtrip_amended c1wBiblio c1wGp (by decide) (by decide) rfl

end Seb
